import Mathlib

/-!
Verification development for the rlottie-based vector-animation core
(files `src/lottie/lottiemodel.cpp`, `src/vector/vbezier.h`).

Shallow embedding conventions:
* The scene-graph nodes relevant to the repeater-normalization pass are
  modelled by the inductive type `LNode` (plain shape child, shape group,
  layer, repeater).  `LottieRepeaterProcesser.visitChildren` is translated
  from the C++ loop over the reversed children list.
* Machine floats are modelled by `ℚ` where the computations are rational
  (bezier arithmetic, gradient stop merge, dash arrays) and by `ℝ` where
  the code calls `std::pow` / trigonometry (transform matrices).
* `VMatrix` (whose implementation file is not part of the sources) is
  modelled as the trace of affine operations that the code applies, plus a
  semantic interpretation `interpM` into functions `ℝ × ℝ → ℝ × ℝ`.
-/

/-! ## Scene-graph nodes and the repeater normalization pass -/

/-- A scene-graph node as seen by `LottieRepeaterProcesser`: only the node
kind (`LOTData::Type`) and the children list matter to the pass.  `plain`
stands for any non-group, non-layer, non-repeater child (paths, paints,
trims, ...); the `Nat` tags stand for the node's other payload and let us
tell nodes apart. -/
inductive LNode where
  | plain (tag : Nat)
  | group (children : List LNode)
  | layer (children : List LNode)
  | repeater (tag : Nat) (children : List LNode)

/-- Size of a node, counting every node in the subtree. -/
def nsize : LNode → Nat
  | .plain _ => 1
  | .group cs => 1 + lsize cs
  | .layer cs => 1 + lsize cs
  | .repeater _ cs => 1 + lsize cs
where
  /-- Size of a children list. -/
  lsize : List LNode → Nat
    | [] => 0
    | x :: r => nsize x + lsize r

theorem nsize_pos (x : LNode) : 0 < nsize x := by
  cases x <;> simp [nsize]

theorem lsize_append (l₁ l₂ : List LNode) :
    nsize.lsize (l₁ ++ l₂) = nsize.lsize l₁ + nsize.lsize l₂ := by
  induction l₁ with
  | nil => simp [nsize.lsize]
  | cons x r ih => simp [nsize.lsize, ih]; omega

theorem lsize_reverse (l : List LNode) :
    nsize.lsize l.reverse = nsize.lsize l := by
  induction l with
  | nil => rfl
  | cons x r ih =>
      simp [List.reverse_cons, lsize_append, nsize.lsize, ih]; omega

/-- Is the node a repeater (`LOTData::Type::Repeater`)? -/
def isRep : LNode → Bool
  | .repeater _ _ => true
  | _ => false

mutual

/-- `LottieRepeaterProcesser::visitChildren`, acting on the REVERSED
children list (the C++ code iterates `rbegin()..rend()`); returns the new
children list in original (front-to-back) order.  On the first repeater
found, the prefix before it (here: the tail of the reversed list) is moved
into a fresh shape group, which is appended to the repeater's children,
the fresh group is visited recursively, and the loop stops. -/
def goRev : List LNode → List LNode
  | [] => []
  | .repeater t cs :: r =>
      [LNode.repeater t (cs ++ [LNode.group (goRev r)])]
  | x :: r => goRev r ++ [visit x]
termination_by l => 2 * nsize.lsize l + 1
decreasing_by
  all_goals simp [nsize.lsize, nsize, lsize_reverse]
  all_goals try omega
  all_goals exact nsize_pos x

/-- `LottieRepeaterProcesser::visit`: recurse into repeater, shape-group
and layer nodes; leave every other node untouched. -/
def visit : LNode → LNode
  | .plain t => .plain t
  | .group cs => .group (goRev cs.reverse)
  | .layer cs => .layer (goRev cs.reverse)
  | .repeater t cs => .repeater t (goRev cs.reverse)
termination_by x => 2 * nsize x
decreasing_by
  all_goals simp [nsize.lsize, nsize, lsize_reverse]
  all_goals omega

end

/-- `LottieRepeaterProcesser::visitChildren` on a children list given in
original (front-to-back) declaration order. -/
def visitChildren (l : List LNode) : List LNode := goRev l.reverse

/-- Children of a node (empty for a plain node). -/
def childrenOf : LNode → List LNode
  | .plain _ => []
  | .group cs => cs
  | .layer cs => cs
  | .repeater _ cs => cs

mutual

/-- Find the repeater with the given tag in a tree and return the children
list of its first child (after normalization: of its owned shape group). -/
def ownedOf (tag : Nat) : LNode → Option (List LNode)
  | .plain _ => none
  | .group cs => ownedOfList tag cs
  | .layer cs => ownedOfList tag cs
  | .repeater t cs =>
      if t = tag then some (childrenOf (cs.headD (.plain 0)))
      else ownedOfList tag cs

/-- `ownedOf` over a children list: first hit wins. -/
def ownedOfList (tag : Nat) : List LNode → Option (List LNode)
  | [] => none
  | x :: r => (ownedOf tag x).orElse (fun _ => ownedOfList tag r)

end

theorem goRev_cons_nonrep (x : LNode) (r : List LNode) (hx : isRep x = false) :
    goRev (x :: r) = goRev r ++ [visit x] := by
  cases x with
  | plain t => simp [goRev]
  | group cs => simp [goRev]
  | layer cs => simp [goRev]
  | repeater t cs => simp [isRep] at hx

theorem goRev_reverse_append (post : List LNode) (l : List LNode)
    (hpost : ∀ x ∈ post, isRep x = false) :
    goRev (post.reverse ++ l) = goRev l ++ post.map visit := by
  induction post generalizing l with
  | nil => simp
  | cons p ps ih =>
      have hp : isRep p = false := hpost p (by simp)
      have hps : ∀ x ∈ ps, isRep x = false := fun x hx => hpost x (by simp [hx])
      calc goRev ((p :: ps).reverse ++ l)
          = goRev (ps.reverse ++ (p :: l)) := by simp
        _ = goRev (p :: l) ++ ps.map visit := ih (p :: l) hps
        _ = (goRev l ++ [visit p]) ++ ps.map visit := by rw [goRev_cons_nonrep p l hp]
        _ = goRev l ++ (p :: ps).map visit := by simp

/-- The concrete children list of claim C1: `[A, B, Repeater(R), C, D,
Repeater(R2)]` with `A,B,C,D` ordinary shape children (`plain 0..3`),
`R = repeater 10`, `R2 = repeater 20`, both with no children (as parsed). -/
def c1Children : List LNode :=
  [.plain 0, .plain 1, .repeater 10 [], .plain 2, .plain 3, .repeater 20 []]

/-- C1 counterexample: on the group `[A, B, Repeater(R), C, D, Repeater(R2)]`
the claim "R's owned group contains exactly [C, D] and R2's owned group
contains exactly [A, B]" is false for the normalized result: the roles are
the other way round (R owns `[A, B]`; R2's group holds `Repeater(R), C, D`). -/
theorem c1_claim_false :
    ¬ (ownedOfList 10 (visitChildren c1Children) = some [.plain 2, .plain 3]
       ∧ ownedOfList 20 (visitChildren c1Children) = some [.plain 0, .plain 1]) := by
  intro h
  have h1 := h.1
  simp [c1Children, visitChildren, goRev, visit, ownedOf, ownedOfList,
    childrenOf, Option.orElse] at h1

/-- C1 amended: normalizing `[A, B, Repeater(R), C, D, Repeater(R2)]` leaves
the group's direct children as just `Repeater(R2)` (no bare `A,B,C,D`);
R2's owned shape group contains `[Repeater(R), C, D]` in original order, and,
recursively, R's owned shape group contains `[A, B]`. -/
theorem c1_amended_normalization :
    visitChildren c1Children
      = [.repeater 20 [.group [.repeater 10 [.group [.plain 0, .plain 1]],
                               .plain 2, .plain 3]]]
    ∧ ownedOfList 20 (visitChildren c1Children)
        = some [.repeater 10 [.group [.plain 0, .plain 1]], .plain 2, .plain 3]
    ∧ ownedOfList 10 (visitChildren c1Children) = some [.plain 0, .plain 1] := by
  refine ⟨?_, ?_, ?_⟩ <;>
    simp [c1Children, visitChildren, goRev, visit, ownedOf, ownedOfList,
      childrenOf, Option.orElse]

/-- C2: visiting a children list in reverse declaration order, the first
repeater encountered (the last one in declaration order, here with only
non-repeater nodes `post` after it) takes all children declared before it,
in order, into a fresh shape group that becomes its sole child; those
children are erased from the list; the fresh group is itself normalized
recursively; processing of the current list stops (the already-visited
suffix `post` stays, each member visited structurally).  With `pre = []`
the repeater ends up owning an empty group. -/
theorem c2_visitChildren_split (pre post : List LNode) (t : Nat)
    (hpost : ∀ x ∈ post, isRep x = false) :
    visitChildren (pre ++ LNode.repeater t [] :: post)
      = LNode.repeater t [LNode.group (visitChildren pre)] :: post.map visit := by
  unfold visitChildren
  have hrev : (pre ++ LNode.repeater t [] :: post).reverse
      = post.reverse ++ (LNode.repeater t [] :: pre.reverse) := by simp
  rw [hrev, goRev_reverse_append post _ hpost]
  simp [goRev]

/-- Witness for C2 at a concrete input, including the empty-prefix case:
a repeater first in the list ends up owning an empty group. -/
theorem c2_visitChildren_split_witness :
    ((∀ x ∈ [LNode.plain 7], isRep x = false)
      ∧ visitChildren [.plain 5, .repeater 3 [], .plain 7]
          = [.repeater 3 [.group [.plain 5]], .plain 7])
    ∧ visitChildren [.repeater 4 [], .plain 8]
        = [.repeater 4 [.group []], .plain 8] := by
  refine ⟨⟨by decide, ?_⟩, ?_⟩
  · exact (c2_visitChildren_split [LNode.plain 5] [LNode.plain 7] 3 (by decide)).trans
      (by simp [visitChildren, goRev, visit])
  · exact (c2_visitChildren_split [] [LNode.plain 8] 4 (by decide)).trans
      (by simp [visitChildren, goRev, visit])

/-! ## Stroke dash expansion (`LOTStrokeData::getDashInfo`,
`LOTGStrokeData::getDashInfo`) -/

/-- The dash property held by both stroke classes: a declared entry count
`mDashCount` and the keyframed entries `mDashArray` (entry index ↦ frame ↦
evaluated value, modelling `mDashArray[i].value(frameNo)`). -/
structure LOTDashProperty where
  mDashCount : Nat
  mDashArray : Nat → Int → ℚ

/-- Solid-color stroke node: the fields `getDashInfo` reads. -/
structure LOTStrokeData where
  mDash : LOTDashProperty

/-- Gradient stroke node: the fields `getDashInfo` reads. -/
structure LOTGStrokeData where
  mDash : LOTDashProperty

/-- `LOTStrokeData::getDashInfo`: the list of values written to `array`
(the returned length is the list's length).  Zero entries: nothing (solid
stroke).  Odd count: every entry evaluated.  Even count: the first
`count - 1` entries evaluated, then the second-to-last evaluated value
duplicated as a trailing gap, then the last entry's evaluated value. -/
def LOTStrokeData.getDashInfo (s : LOTStrokeData) (frameNo : Int) : List ℚ :=
  if s.mDash.mDashCount = 0 then []
  else if s.mDash.mDashCount % 2 = 1 then
    (List.range s.mDash.mDashCount).map (fun i => s.mDash.mDashArray i frameNo)
  else
    ((List.range (s.mDash.mDashCount - 1)).map (fun i => s.mDash.mDashArray i frameNo))
      ++ [s.mDash.mDashArray (s.mDash.mDashCount - 2) frameNo,
          s.mDash.mDashArray (s.mDash.mDashCount - 1) frameNo]

/-- `LOTGStrokeData::getDashInfo`: the gradient-stroke variant, a verbatim
duplicate of the solid-stroke code. -/
def LOTGStrokeData.getDashInfo (s : LOTGStrokeData) (frameNo : Int) : List ℚ :=
  if s.mDash.mDashCount = 0 then []
  else if s.mDash.mDashCount % 2 = 1 then
    (List.range s.mDash.mDashCount).map (fun i => s.mDash.mDashArray i frameNo)
  else
    ((List.range (s.mDash.mDashCount - 1)).map (fun i => s.mDash.mDashArray i frameNo))
      ++ [s.mDash.mDashArray (s.mDash.mDashCount - 2) frameNo,
          s.mDash.mDashArray (s.mDash.mDashCount - 1) frameNo]

/-- C6: `getDashInfo` returns nothing for a zero dash count; for an odd
count it writes each entry's evaluated value (length unchanged); for an
even count it writes the first `count-1` evaluated entries, duplicates the
second-to-last evaluated value as a fabricated trailing gap, then appends
the final entry's evaluated value, returning `count + 1` values. -/
theorem getDashInfo_cases (s : LOTStrokeData) (f : Int) :
    (s.mDash.mDashCount = 0 → s.getDashInfo f = [])
    ∧ (s.mDash.mDashCount % 2 = 1 →
        (s.getDashInfo f).length = s.mDash.mDashCount
        ∧ ∀ i, i < s.mDash.mDashCount →
            (s.getDashInfo f).getD i 0 = s.mDash.mDashArray i f)
    ∧ (s.mDash.mDashCount ≠ 0 → s.mDash.mDashCount % 2 = 0 →
        (s.getDashInfo f).length = s.mDash.mDashCount + 1
        ∧ (∀ i, i < s.mDash.mDashCount - 1 →
            (s.getDashInfo f).getD i 0 = s.mDash.mDashArray i f)
        ∧ (s.getDashInfo f).getD (s.mDash.mDashCount - 1) 0
            = s.mDash.mDashArray (s.mDash.mDashCount - 2) f
        ∧ (s.getDashInfo f).getD s.mDash.mDashCount 0
            = s.mDash.mDashArray (s.mDash.mDashCount - 1) f) := by
  refine ⟨fun h0 => by simp [LOTStrokeData.getDashInfo, h0],
    fun hodd => ?_, fun hne heven => ?_⟩
  · have hne : ¬ s.mDash.mDashCount = 0 := by omega
    constructor
    · simp [LOTStrokeData.getDashInfo, hne, hodd]
    · intro i hi
      simp [LOTStrokeData.getDashInfo, hne, hodd, List.getD_eq_getElem?_getD, hi]
  · have hodd2 : ¬ s.mDash.mDashCount % 2 = 1 := by omega
    have hd : s.getDashInfo f
        = ((List.range (s.mDash.mDashCount - 1)).map
            (fun i => s.mDash.mDashArray i f))
          ++ [s.mDash.mDashArray (s.mDash.mDashCount - 2) f,
              s.mDash.mDashArray (s.mDash.mDashCount - 1) f] := by
      simp [LOTStrokeData.getDashInfo, hne, hodd2]
    have hlen : ((List.range (s.mDash.mDashCount - 1)).map
        (fun i => s.mDash.mDashArray i f)).length = s.mDash.mDashCount - 1 := by simp
    refine ⟨?_, ?_, ?_, ?_⟩
    · rw [hd]; simp; omega
    · intro i hi
      rw [hd, List.getD_eq_getElem?_getD, List.getElem?_append_left (by omega),
        List.getElem?_map, List.getElem?_range hi]
      rfl
    · rw [hd, List.getD_eq_getElem?_getD, List.getElem?_append_right (by omega)]
      rw [hlen, Nat.sub_self]
      rfl
    · rw [hd, List.getD_eq_getElem?_getD, List.getElem?_append_right (by omega)]
      rw [hlen, show s.mDash.mDashCount - (s.mDash.mDashCount - 1) = 1 by omega]
      rfl

/-- A concrete dash set for the C6 witness: declared entries `[4, 2]`
(even count), constant over frames. -/
def dashEx : LOTStrokeData :=
  ⟨⟨2, fun i _ => [(4 : ℚ), 2].getD i 0⟩⟩

/-- Witness for C6: the even case at dash entries `[4, 2]` gives the
expected length 3 with values `[4, 4, 2]`: first entry 4, the evaluated
value at output index `count - 2` duplicated as the fabricated gap, then
the final entry 2. -/
theorem getDashInfo_cases_witness :
    (dashEx.mDash.mDashCount ≠ 0 ∧ dashEx.mDash.mDashCount % 2 = 0)
    ∧ ((dashEx.getDashInfo 0).length = 3
        ∧ (dashEx.getDashInfo 0).getD 0 0 = 4
        ∧ (dashEx.getDashInfo 0).getD 1 0 = dashEx.mDash.mDashArray 0 0
        ∧ (dashEx.getDashInfo 0).getD 2 0 = 2) := by
  have h := (getDashInfo_cases dashEx 0).2.2 (by decide) (by decide)
  exact ⟨⟨by decide, by decide⟩,
    h.1, h.2.1 0 (by decide), h.2.2.1, h.2.2.2⟩

/-- C10: the gradient-stroke `LOTGStrokeData::getDashInfo` is behaviorally
identical to the solid-stroke `LOTStrokeData::getDashInfo`: for identical
dash data and any frame they produce the same values (hence length). -/
theorem gstroke_stroke_getDashInfo_eq (d : LOTDashProperty) (f : Int) :
    LOTGStrokeData.getDashInfo ⟨d⟩ f = LOTStrokeData.getDashInfo ⟨d⟩ f := rfl

/-! ## Cubic bezier kernel (`VBezier`, `src/vector/vbezier.h`) -/

/-- A cubic bezier segment: the four control points, stored as in the C++
class (`x1..x4`, `y1..y4`).  Float arithmetic is modelled exactly over `ℚ`. -/
structure VBezier where
  x1 : ℚ
  y1 : ℚ
  x2 : ℚ
  y2 : ℚ
  x3 : ℚ
  y3 : ℚ
  x4 : ℚ
  y4 : ℚ

namespace VBezier

/-- `VBezier::pointAt`: the numerically stable nested-lerp form used by the
code, transcribed literally. -/
def pointAt (b : VBezier) (t : ℚ) : ℚ × ℚ :=
  let m_t := 1 - t
  let xa := b.x1 * m_t + b.x2 * t
  let xb := b.x2 * m_t + b.x3 * t
  let xc := b.x3 * m_t + b.x4 * t
  let xa2 := xa * m_t + xb * t
  let xb2 := xb * m_t + xc * t
  let x := xa2 * m_t + xb2 * t
  let ya := b.y1 * m_t + b.y2 * t
  let yb := b.y2 * m_t + b.y3 * t
  let yc := b.y3 * m_t + b.y4 * t
  let ya2 := ya * m_t + yb * t
  let yb2 := yb * m_t + yc * t
  let y := ya2 * m_t + yb2 * t
  (x, y)

/-- `VBezier::parameterSplitLeft`: writes the left segment into `left` and
mutates the receiver into the right remainder; modelled as returning the
pair `(left, right)`.  The assignment sequence of the C++ code is
transcribed step by step (`left.x3` is first used as a temporary). -/
def parameterSplitLeft (b : VBezier) (t : ℚ) : VBezier × VBezier :=
  let lx1 := b.x1
  let ly1 := b.y1
  let lx2 := b.x1 + t * (b.x2 - b.x1)
  let ly2 := b.y1 + t * (b.y2 - b.y1)
  let lx3tmp := b.x2 + t * (b.x3 - b.x2)
  let ly3tmp := b.y2 + t * (b.y3 - b.y2)
  let rx3 := b.x3 + t * (b.x4 - b.x3)
  let ry3 := b.y3 + t * (b.y4 - b.y3)
  let rx2 := lx3tmp + t * (rx3 - lx3tmp)
  let ry2 := ly3tmp + t * (ry3 - ly3tmp)
  let lx3 := lx2 + t * (lx3tmp - lx2)
  let ly3 := ly2 + t * (ly3tmp - ly2)
  let lx4 := lx3 + t * (rx2 - lx3)
  let ly4 := ly3 + t * (ry2 - ly3)
  (⟨lx1, ly1, lx2, ly2, lx3, ly3, lx4, ly4⟩,
   ⟨lx4, ly4, rx2, ry2, rx3, ry3, b.x4, b.y4⟩)

/-- `VBezier::split`: midpoint de Casteljau subdivision into `firstHalf`
and `secondHalf`, transcribed literally (`c` is the midpoint of the middle
control points). -/
def split (b : VBezier) : VBezier × VBezier :=
  let cx := (b.x2 + b.x3) * (1 / 2)
  let fx2 := (b.x1 + b.x2) * (1 / 2)
  let sx3 := (b.x3 + b.x4) * (1 / 2)
  let fx3 := (fx2 + cx) * (1 / 2)
  let sx2 := (sx3 + cx) * (1 / 2)
  let mx := (fx3 + sx2) * (1 / 2)
  let cy := (b.y2 + b.y3) / 2
  let fy2 := (b.y1 + b.y2) * (1 / 2)
  let sy3 := (b.y3 + b.y4) * (1 / 2)
  let fy3 := (fy2 + cy) * (1 / 2)
  let sy2 := (sy3 + cy) * (1 / 2)
  let my := (fy3 + sy2) * (1 / 2)
  (⟨b.x1, b.y1, fx2, fy2, fx3, fy3, mx, my⟩,
   ⟨mx, my, sx2, sy2, sx3, sy3, b.x4, b.y4⟩)

/-- Start point (`VBezier::pt1`). -/
def pt1 (b : VBezier) : ℚ × ℚ := (b.x1, b.y1)

/-- End point (`VBezier::pt4`). -/
def pt4 (b : VBezier) : ℚ × ℚ := (b.x4, b.y4)

end VBezier

/-- C9: de Casteljau subdivision at any `t` (the code's
`parameterSplitLeft`, returning the pair (left, mutated-receiver = right);
`split` is the `t = 1/2` instance) yields two 4-point segments that
exactly reproduce the original curve: the left segment traces
`pointAt (t*u)` and the right segment `pointAt (t + (1-t)*u)`, and
`left.pt4 = right.pt1 = original.pointAt t`. -/
theorem bezier_split_exact (b : VBezier) (t u : ℚ) :
    ((b.parameterSplitLeft t).1).pt4 = ((b.parameterSplitLeft t).2).pt1
    ∧ ((b.parameterSplitLeft t).1).pt4 = b.pointAt t
    ∧ ((b.parameterSplitLeft t).1).pointAt u = b.pointAt (t * u)
    ∧ ((b.parameterSplitLeft t).2).pointAt u = b.pointAt (t + (1 - t) * u)
    ∧ b.split = b.parameterSplitLeft (1 / 2) := by
  refine ⟨rfl, ?_, ?_, ?_, ?_⟩ <;>
    simp only [VBezier.pointAt, VBezier.parameterSplitLeft, VBezier.split,
      VBezier.pt1, VBezier.pt4, Prod.mk.injEq, VBezier.mk.injEq] <;>
    (repeat' apply And.intro) <;> ring

/-! ## Transform evaluation (`LOTTransformData`, lottiemodel.cpp 86-140)

`VMatrix` is implemented in `vmatrix.cpp`, which is not among the sources;
it is modelled as the trace of affine operations the lottie code applies
(`translate` / `rotate` (Z default, or Y/X axis) / `scale`), together with a
semantic interpretation `interpM` into point maps `ℝ × ℝ → ℝ × ℝ`. -/

/-- One affine operation applied to a `VMatrix` by the lottie code. -/
inductive VOp where
  | translate (v : ℝ × ℝ)
  | rotateZ (deg : ℝ)
  | rotateY (deg : ℝ)
  | rotateX (deg : ℝ)
  | scaleOp (s : ℝ × ℝ)

/-- The trace of affine operations applied to an identity `VMatrix`, in
the order the code chains them. -/
def VMatrix := List VOp

/-- Modelled from the spec: the semantics of a single `VMatrix` operation
as a map on points (the `VMatrix` implementation is not in the sources).
Rotation angles are in degrees; the Y/X-axis Euler rotations act on the
`z = 0` plane with orthographic projection. -/
noncomputable def opFun : VOp → (ℝ × ℝ → ℝ × ℝ)
  | .translate v => fun p => (p.1 + v.1, p.2 + v.2)
  | .rotateZ deg => fun p =>
      (Real.cos (deg * Real.pi / 180) * p.1 - Real.sin (deg * Real.pi / 180) * p.2,
       Real.sin (deg * Real.pi / 180) * p.1 + Real.cos (deg * Real.pi / 180) * p.2)
  | .rotateY deg => fun p => (Real.cos (deg * Real.pi / 180) * p.1, p.2)
  | .rotateX deg => fun p => (p.1, Real.cos (deg * Real.pi / 180) * p.2)
  | .scaleOp s => fun p => (s.1 * p.1, s.2 * p.2)

/-- Semantics of an operation trace: the first chained operation is the
outermost map (operations are applied to the point last-op-first, as for
a matrix built by post-multiplication). -/
noncomputable def interpM : VMatrix → (ℝ × ℝ → ℝ × ℝ)
  | [] => id
  | op :: rest => opFun op ∘ interpM rest

/-- The 3-D rotation channels (`LOTTransformData::m3D`). -/
structure LOT3DData where
  mRx : ℤ → ℝ
  mRy : ℤ → ℝ
  mRz : ℤ → ℝ

/-- `LOTTransformData`: each keyframed property is modelled as its value
function frame ↦ value (`mPosition.value(frameNo)` etc.);
`mPositionAngle f` models `mPosition.angle(f)`, the tangent angle of the
position timeline (its implementation is in the keyframe interpolator,
not among the sources).  `m3D = some _` models `ddd()` being true. -/
structure LOTTransformData where
  mPosition : ℤ → ℝ × ℝ
  mPositionAngle : ℤ → ℝ
  mX : ℤ → ℝ
  mY : ℤ → ℝ
  mScale : ℤ → ℝ × ℝ
  mRotation : ℤ → ℝ
  mAnchor : ℤ → ℝ × ℝ
  mSeparate : Bool
  m3D : Option LOT3DData
  mStaticMatrix : Bool
  mCachedMatrix : VMatrix

namespace LOTTransformData

/-- `LOTTransformData::matrixForRepeater(frameNo, multiplier)`: translate
by position times the multiplier, rotate by rotation times the multiplier,
scale by `(scale/100)` raised componentwise to the multiplier via
`std::pow`, then translate by the anchor (unscaled, unnegated). -/
noncomputable def matrixForRepeater (d : LOTTransformData) (frameNo : ℤ)
    (multiplier : ℝ) : VMatrix :=
  [.translate ((d.mPosition frameNo).1 * multiplier, (d.mPosition frameNo).2 * multiplier),
   .rotateZ (d.mRotation frameNo * multiplier),
   .scaleOp (Real.rpow ((d.mScale frameNo).1 / 100) multiplier,
             Real.rpow ((d.mScale frameNo).2 / 100) multiplier),
   .translate (d.mAnchor frameNo)]

/-- `LOTTransformData::computeMatrix(frameNo, autoOrient)`: the C++ default
argument `autoOrient = false` is passed explicitly by callers here. -/
noncomputable def computeMatrix (d : LOTTransformData) (frameNo : ℤ)
    (autoOrient : Bool) : VMatrix :=
  let position := if d.mSeparate then (d.mX frameNo, d.mY frameNo) else d.mPosition frameNo
  let angle : ℝ := if autoOrient then d.mPositionAngle frameNo else 0
  match d.m3D with
  | some t3 =>
      [.translate position, .rotateZ (d.mRotation frameNo), .rotateZ angle,
       .rotateZ (t3.mRz frameNo), .rotateY (t3.mRy frameNo), .rotateX (t3.mRx frameNo),
       .scaleOp ((d.mScale frameNo).1 / 100, (d.mScale frameNo).2 / 100),
       .translate (-(d.mAnchor frameNo).1, -(d.mAnchor frameNo).2)]
  | none =>
      [.translate position, .rotateZ (d.mRotation frameNo), .rotateZ angle,
       .scaleOp ((d.mScale frameNo).1 / 100, (d.mScale frameNo).2 / 100),
       .translate (-(d.mAnchor frameNo).1, -(d.mAnchor frameNo).2)]

/-- `LOTTransformData::matrix(frameNo, autoOrient)`. -/
noncomputable def matrix (d : LOTTransformData) (frameNo : ℤ) (autoOrient : Bool) : VMatrix :=
  if d.mStaticMatrix then d.mCachedMatrix else d.computeMatrix frameNo autoOrient

end LOTTransformData

theorem opFun_rotateZ_zero : opFun (.rotateZ 0) = id := by
  funext p
  simp [opFun]

/-- C7: for a non-static transform the evaluated matrix is, semantically,
exactly: translate to the keyframed position (separate X/Y channels when
the separate flag is set), then rotate by the keyframed rotation, then (if
autoOrient) rotate by the tangent angle of the position timeline, then (if
3-D) rotate by the Z, Y, X Euler angles in that order, then scale by the
keyframed scale over 100, then translate by the negated anchor point. -/
theorem computeMatrix_composition (d : LOTTransformData) (f : ℤ) (ao : Bool)
    (h : d.mStaticMatrix = false) :
    interpM (d.matrix f ao)
      = opFun (.translate (if d.mSeparate then (d.mX f, d.mY f) else d.mPosition f))
        ∘ opFun (.rotateZ (d.mRotation f))
        ∘ (if ao then opFun (.rotateZ (d.mPositionAngle f)) else id)
        ∘ (match d.m3D with
           | some t3 => opFun (.rotateZ (t3.mRz f)) ∘ opFun (.rotateY (t3.mRy f))
               ∘ opFun (.rotateX (t3.mRx f))
           | none => id)
        ∘ opFun (.scaleOp ((d.mScale f).1 / 100, (d.mScale f).2 / 100))
        ∘ opFun (.translate (-(d.mAnchor f).1, -(d.mAnchor f).2)) := by
  cases hds : d.m3D <;> cases ao <;>
    simp [LOTTransformData.matrix, h, LOTTransformData.computeMatrix, interpM, hds,
      opFun_rotateZ_zero, Function.comp_assoc]

/-- A concrete non-static transform used as the C7 witness: separate X/Y
position channels, 3-D rotations present, autoOrient on. -/
noncomputable def c7Ex : LOTTransformData :=
  ⟨fun _ => (3, 4), fun _ => 15, fun _ => 7, fun _ => 8,
   fun _ => (200, 50), fun _ => 30, fun _ => (1, 2),
   true, some ⟨fun _ => 10, fun _ => 20, fun _ => 40⟩, false, []⟩

/-- Witness for C7 at a concrete non-static transform, at frame 5 with
autoOrient set. -/
theorem computeMatrix_composition_witness :
    c7Ex.mStaticMatrix = false
    ∧ interpM (c7Ex.matrix 5 true)
      = opFun (.translate (if c7Ex.mSeparate then (c7Ex.mX 5, c7Ex.mY 5)
                           else c7Ex.mPosition 5))
        ∘ opFun (.rotateZ (c7Ex.mRotation 5))
        ∘ (if true then opFun (.rotateZ (c7Ex.mPositionAngle 5)) else id)
        ∘ (match c7Ex.m3D with
           | some t3 => opFun (.rotateZ (t3.mRz 5)) ∘ opFun (.rotateY (t3.mRy 5))
               ∘ opFun (.rotateX (t3.mRx 5))
           | none => id)
        ∘ opFun (.scaleOp ((c7Ex.mScale 5).1 / 100, (c7Ex.mScale 5).2 / 100))
        ∘ opFun (.translate (-(c7Ex.mAnchor 5).1, -(c7Ex.mAnchor 5).2)) :=
  ⟨rfl, computeMatrix_composition c7Ex 5 true rfl⟩

/-- C8: a static transform returns its cached matrix (computed at frame 0
with autoOrient false) for every requested frame and autoOrient flag, so
any two requests return the identical matrix. -/
theorem static_matrix_constant (d : LOTTransformData) (f1 f2 : ℤ) (a1 a2 : Bool)
    (h : d.mStaticMatrix = true)
    (hc : d.mCachedMatrix = d.computeMatrix 0 false) :
    d.matrix f1 a1 = d.computeMatrix 0 false ∧ d.matrix f1 a1 = d.matrix f2 a2 := by
  simp [LOTTransformData.matrix, h, hc]

/-- A concrete static transform whose cache holds the matrix computed at
frame 0 (as `cacheMatrix` establishes), used as the C8 witness. -/
noncomputable def c8Ex : LOTTransformData :=
  ⟨fun _ => (3, 4), fun _ => 0, fun _ => 0, fun _ => 0,
   fun _ => (100, 100), fun _ => 30, fun _ => (1, 2),
   false, none, true,
   LOTTransformData.computeMatrix
     ⟨fun _ => (3, 4), fun _ => 0, fun _ => 0, fun _ => 0,
      fun _ => (100, 100), fun _ => 30, fun _ => (1, 2),
      false, none, true, []⟩ 0 false⟩

/-- Witness for C8: the concrete static transform returns the frame-0
matrix at frames 5 and 7 regardless of autoOrient. -/
theorem static_matrix_constant_witness :
    (c8Ex.mStaticMatrix = true ∧ c8Ex.mCachedMatrix = c8Ex.computeMatrix 0 false)
    ∧ c8Ex.matrix 5 true = c8Ex.computeMatrix 0 false
    ∧ c8Ex.matrix 5 true = c8Ex.matrix 7 false := by
  have h := static_matrix_constant c8Ex 5 7 true false rfl rfl
  exact ⟨⟨rfl, rfl⟩, h.1, h.2⟩

/-- A concrete transform for the C3 counterexample: scale 100 %, rotation
0, position (0,0), anchor (1,0). -/
noncomputable def c3Ex : LOTTransformData :=
  ⟨fun _ => (0, 0), fun _ => 0, fun _ => 0, fun _ => 0,
   fun _ => (100, 100), fun _ => 0, fun _ => (1, 0),
   false, none, false, []⟩

/-- C3 counterexample: with anchor (1,0) and multiplier 2 the repeater
matrix is NOT the claimed composition in which the anchor contribution is
scaled linearly by the multiplier — the code translates by the anchor
unscaled.  The two op traces differ as point maps (they disagree at the
origin). -/
theorem matrixForRepeater_claim_false :
    interpM (c3Ex.matrixForRepeater 0 2)
      ≠ interpM [.translate (0 * 2, 0 * 2), .rotateZ (0 * 2),
                 .scaleOp (Real.rpow (100 / 100) 2, Real.rpow (100 / 100) 2),
                 .translate (1 * 2, 0 * 2)] := by
  intro h
  have h0 := congrFun h (0, 0)
  simp [interpM, opFun, LOTTransformData.matrixForRepeater, c3Ex,
    Real.one_rpow] at h0

/-- C3 amended: `matrixForRepeater` composes translate by position times
the multiplier, rotate by rotation times the multiplier, scale by
`(scale/100)` raised componentwise to the multiplier, and finally
translate by the UNSCALED (and unnegated) anchor; no auto-orientation and
no 3-D terms appear. -/
theorem matrixForRepeater_composition (d : LOTTransformData) (f : ℤ) (m : ℝ) :
    interpM (d.matrixForRepeater f m)
      = opFun (.translate ((d.mPosition f).1 * m, (d.mPosition f).2 * m))
        ∘ opFun (.rotateZ (d.mRotation f * m))
        ∘ opFun (.scaleOp (Real.rpow ((d.mScale f).1 / 100) m,
                           Real.rpow ((d.mScale f).2 / 100) m))
        ∘ opFun (.translate (d.mAnchor f)) := by
  simp [LOTTransformData.matrixForRepeater, interpM, Function.comp_assoc]

/-! ## Gradient stop merge (`LOTGradient::populate`, lottiemodel.cpp 202-265) -/

/-- One emitted gradient stop: position plus the merged color.
`LottieColor::toColor(opacity)` (implementation not among the sources) is
modelled as pairing the rgb triple with the opacity; `toColor()` with no
argument uses full opacity 1 (spec: the color stop's implicit full
opacity). -/
structure GStop where
  pos : ℚ
  alpha : ℚ
  red : ℚ
  green : ℚ
  blue : ℚ
  deriving DecidableEq

/-- Read the flat gradient buffer at an integer offset; out-of-range reads
(undefined behavior in the C++) return 0. -/
def bget (buf : List ℚ) (k : ℤ) : ℚ :=
  if k < 0 then 0 else buf.getD k.toNat 0

/-- The inner `for (; j < opacityArraySize; j += 2)` loop of
`LOTGradient::populate`, for one color stop at position `c` with rgb
`(cr, cg, cb)`: each opacity stop lying strictly before `c` emits an extra
stop at the opacity stop's position and is consumed; the first opacity
stop at or beyond `c` emits the merged stop at `c` (first-interval direct
value when `j == 0`, else linear interpolation) and breaks with `j + 2`.
Returns the emitted stops and the final `j`. -/
def popInner (buf : List ℚ) (opOff opSize : ℤ) (c cr cg cb : ℚ) (j : ℤ) :
    List GStop × ℤ :=
  if h : j < opSize then
    if bget buf (opOff + j) < c then
      (⟨bget buf (opOff + j), bget buf (opOff + j + 1), cr, cg, cb⟩
         :: (popInner buf opOff opSize c cr cg cb (j + 2)).1,
       (popInner buf opOff opSize c cr cg cb (j + 2)).2)
    else
      ([if j = 0 then ⟨c, bget buf (opOff + j + 1), cr, cg, cb⟩
        else
          ⟨c, bget buf (opOff + j - 1)
               + (c - bget buf (opOff + j - 2))
                 / (bget buf (opOff + j) - bget buf (opOff + j - 2))
                 * (bget buf (opOff + j + 1) - bget buf (opOff + j - 1)),
           cr, cg, cb⟩],
       j + 2)
  else ([], j)
termination_by (opSize - j).toNat
decreasing_by omega

/-- The outer `for (int i = 0; i < colorPoints; i++)` loop of
`LOTGradient::populate`: `base` is the buffer offset of the current color
stop (the code's advancing `ptr`), `j` the persistent opacity index, `n`
the remaining color-stop count.  Branches: no opacity data at all; opacity
array already exhausted (`j == opacityArraySize`, clamp to the last
interval or interpolate inside it); otherwise the inner scan.  In the
exhausted branch the C++ ends with `continue`, which skips the
`ptr += 4` at the bottom of the loop body: the color pointer stalls, so
every remaining iteration re-reads the SAME color stop; hence that branch
recurses with `base` unchanged. -/
def popGo (buf : List ℚ) (opOff opSize : ℤ) : ℤ → ℤ → Nat → List GStop
  | _, _, 0 => []
  | base, j, n + 1 =>
    if opSize = 0 then
      ⟨bget buf base, 1, bget buf (base + 1), bget buf (base + 2), bget buf (base + 3)⟩
        :: popGo buf opOff opSize (base + 4) j n
    else if j = opSize then
      (if bget buf (opOff + j - 2) < bget buf base then
        (⟨bget buf base, bget buf (opOff + j - 1),
          bget buf (base + 1), bget buf (base + 2), bget buf (base + 3)⟩ : GStop)
       else
        ⟨bget buf base,
         bget buf (opOff + j - 3)
           + (bget buf base - bget buf (opOff + j - 4))
             / (bget buf (opOff + j - 2) - bget buf (opOff + j - 4))
             * (bget buf (opOff + j - 1) - bget buf (opOff + j - 3)),
         bget buf (base + 1), bget buf (base + 2), bget buf (base + 3)⟩)
        :: popGo buf opOff opSize base j n
    else
      (popInner buf opOff opSize (bget buf base) (bget buf (base + 1))
          (bget buf (base + 2)) (bget buf (base + 3)) j).1
        ++ popGo buf opOff opSize (base + 4)
            (popInner buf opOff opSize (bget buf base) (bget buf (base + 1))
              (bget buf (base + 2)) (bget buf (base + 3)) j).2 n

/-- The gradient node fields `populate` reads: the declared color-stop
count and the keyframed flat buffer (frame ↦
`mGradient.value(frameNo).mGradient`). -/
structure LOTGradient where
  mColorPoints : ℤ
  mGradient : ℤ → List ℚ

/-- The effective color-point count: the declared count, or a quarter of
the buffer length for the legacy bodymovin sentinel `-1`. -/
def resolvedColorPoints (g : LOTGradient) (f : ℤ) : ℤ :=
  if g.mColorPoints = -1 then ((g.mGradient f).length : ℤ) / 4 else g.mColorPoints

/-- `LOTGradient::populate`: merge the color stops with the trailing
opacity stops of the flat buffer into the emitted stop list. -/
def populate (g : LOTGradient) (f : ℤ) : List GStop :=
  let buf := g.mGradient f
  let colorPoints := resolvedColorPoints g f
  let opSize : ℤ := (buf.length : ℤ) - colorPoints * 4
  let opOff : ℤ := colorPoints * 4
  popGo buf opOff opSize 0 0 colorPoints.toNat

/-- The C4 counterexample gradient: one declared color stop `(0.5, white)`
followed by two opacity stops `(0.0, 1.0), (1.0, 0.0)`. -/
def c4Ex : LOTGradient := ⟨1, fun _ => [1/2, 1, 1, 1, 0, 1, 1, 0]⟩

/-- C4 counterexample: `populate` does NOT emit exactly one merged stop per
input color stop.  For one color stop at 0.5 with opacity stops at 0.0 and
1.0 the output has two stops: the inner merge loop pushes an extra stop at
every opacity-stop position lying before the color stop. -/
theorem populate_one_stop_claim_false :
    ¬ ((populate c4Ex 0).length = (resolvedColorPoints c4Ex 0).toNat) := by
  have h1 : (populate c4Ex 0).length = 2 := by
    simp [populate, c4Ex, resolvedColorPoints, popGo, popInner, bget]
    norm_num
  have h2 : resolvedColorPoints c4Ex 0 = 1 := by simp [resolvedColorPoints, c4Ex]
  rw [h1, h2]
  decide

theorem popGo_noOpacity (buf : List ℚ) (opOff : ℤ) (n : ℕ) :
    ∀ base j, popGo buf opOff 0 base j n
      = (List.range n).map (fun i =>
          ⟨bget buf (base + 4 * i), 1, bget buf (base + 4 * i + 1),
           bget buf (base + 4 * i + 2), bget buf (base + 4 * i + 3)⟩) := by
  induction n with
  | zero => simp [popGo]
  | succ n ih =>
      intro base j
      rw [List.range_succ_eq_map]
      simp only [popGo, if_true, List.map_cons, List.map_map, ih (base + 4) j]
      refine congrArg₂ List.cons ?_ ?_
      · simp
      · apply List.map_congr_left
        intro i _
        simp only [Function.comp]
        congr 1 <;> (try rfl) <;> (congr 1 <;> push_cast <;> ring)

/-- C4 amended: when the buffer carries no opacity pairs (its length is
four times the effective color-stop count), `populate` emits exactly one
stop per input color stop, in color-stop order, with the positions taken
from the buffer unsorted; the count is the declared one, with the legacy
sentinel `-1` resolved as a quarter of the buffer length
(`resolvedColorPoints`).  When opacity pairs exist, extra stops are
emitted at opacity-stop positions lying before a color stop (see the
counterexample), so the one-stop-per-color-stop form needs this
hypothesis. -/
theorem populate_one_stop_per_color_no_opacity (g : LOTGradient) (f : ℤ)
    (hlen : ((g.mGradient f).length : ℤ) = 4 * resolvedColorPoints g f) :
    populate g f = (List.range (resolvedColorPoints g f).toNat).map (fun i =>
        ⟨bget (g.mGradient f) (4 * i), 1, bget (g.mGradient f) (4 * i + 1),
         bget (g.mGradient f) (4 * i + 2), bget (g.mGradient f) (4 * i + 3)⟩) := by
  have hop : ((g.mGradient f).length : ℤ) - resolvedColorPoints g f * 4 = 0 := by omega
  simp only [populate, hop, popGo_noOpacity (g.mGradient f) _ _ 0 0]
  apply List.map_congr_left
  intro i _
  congr 1 <;> (try rfl) <;> (congr 1 <;> push_cast <;> ring)

/-- C4 witness gradient with an explicit count: two color stops, no
opacity pairs. -/
def c4W : LOTGradient := ⟨2, fun _ => [0, 1, 1, 1, 1, 3/4, 1/2, 1/4]⟩

/-- C4 witness gradient with the legacy sentinel `-1` count. -/
def c4W2 : LOTGradient := ⟨-1, fun _ => [0, 1, 1, 1, 1, 3/4, 1/2, 1/4]⟩

/-- Witness for the amended C4: a two-stop opacity-free gradient produces
exactly its two color stops in order, both for an explicit count and for
the sentinel `-1` (inferred as 8/4 = 2). -/
theorem populate_one_stop_per_color_no_opacity_witness :
    (((c4W.mGradient 0).length : ℤ) = 4 * resolvedColorPoints c4W 0
      ∧ populate c4W 0 = [⟨0, 1, 1, 1, 1⟩, ⟨1, 1, 3/4, 1/2, 1/4⟩])
    ∧ (c4W2.mColorPoints = -1
      ∧ ((c4W2.mGradient 0).length : ℤ) = 4 * resolvedColorPoints c4W2 0
      ∧ populate c4W2 0 = [⟨0, 1, 1, 1, 1⟩, ⟨1, 1, 3/4, 1/2, 1/4⟩]) := by
  have he1 : (List.range (resolvedColorPoints c4W 0).toNat).map (fun i =>
      (⟨bget (c4W.mGradient 0) (4 * i), 1, bget (c4W.mGradient 0) (4 * i + 1),
        bget (c4W.mGradient 0) (4 * i + 2), bget (c4W.mGradient 0) (4 * i + 3)⟩ : GStop))
      = [⟨0, 1, 1, 1, 1⟩, ⟨1, 1, 3/4, 1/2, 1/4⟩] := by
    norm_num [c4W, bget, List.range_succ, resolvedColorPoints,
      show (Int.toNat 2) = 2 from rfl, Int.toNat_ofNat]
    exact ⟨rfl, rfl, rfl, rfl, rfl⟩
  have he2 : (List.range (resolvedColorPoints c4W2 0).toNat).map (fun i =>
      (⟨bget (c4W2.mGradient 0) (4 * i), 1, bget (c4W2.mGradient 0) (4 * i + 1),
        bget (c4W2.mGradient 0) (4 * i + 2), bget (c4W2.mGradient 0) (4 * i + 3)⟩ : GStop))
      = [⟨0, 1, 1, 1, 1⟩, ⟨1, 1, 3/4, 1/2, 1/4⟩] := by
    norm_num [c4W2, bget, List.range_succ, resolvedColorPoints,
      show (Int.toNat 2) = 2 from rfl, Int.toNat_ofNat]
    exact ⟨rfl, rfl, rfl, rfl, rfl⟩
  exact ⟨⟨by decide, (populate_one_stop_per_color_no_opacity c4W 0 (by decide)).trans he1⟩,
    by decide, by decide,
    (populate_one_stop_per_color_no_opacity c4W2 0 (by decide)).trans he2⟩
theorem popInner_spec (buf : List ℚ) (opOff opSize : ℤ)
    (hos : ∀ k1 k2 : ℤ, 0 ≤ k1 → k1 ≤ k2 → 2 * k2 < opSize →
      bget buf (opOff + 2 * k1) ≤ bget buf (opOff + 2 * k2))
    (hob : ∀ k : ℤ, 0 ≤ k → 2 * k < opSize →
      0 ≤ bget buf (opOff + 2 * k) ∧ bget buf (opOff + 2 * k) ≤ 1)
    (c cr cg cb : ℚ) (hc0 : 0 ≤ c) (hc1 : c ≤ 1) :
    ∀ F : ℕ, ∀ j : ℤ, (opSize - j).toNat ≤ F → 0 ≤ j → j % 2 = 0 →
    ∀ L : ℚ, L ≤ c →
    (∀ k : ℤ, 0 ≤ k → j ≤ 2 * k → 2 * k < opSize → L ≤ bget buf (opOff + 2 * k)) →
    List.Chain' (· ≤ ·)
        (L :: ((popInner buf opOff opSize c cr cg cb j).1.map GStop.pos))
    ∧ (∀ s ∈ (popInner buf opOff opSize c cr cg cb j).1,
        0 ≤ s.pos ∧ s.pos ≤ 1 ∧ s.pos ≤ c)
    ∧ j ≤ (popInner buf opOff opSize c cr cg cb j).2
    ∧ 0 ≤ (popInner buf opOff opSize c cr cg cb j).2
    ∧ (popInner buf opOff opSize c cr cg cb j).2 % 2 = 0
    ∧ (∀ k : ℤ, 0 ≤ k → (popInner buf opOff opSize c cr cg cb j).2 ≤ 2 * k →
        2 * k < opSize → c ≤ bget buf (opOff + 2 * k)) := by
  intro F
  induction F with
  | zero =>
      intro j hF hj0 hj2 L hLc hLo
      have hjs : ¬ j < opSize := by omega
      rw [popInner, dif_neg hjs]
      refine ⟨by simp, by simp, le_refl j, hj0, hj2, ?_⟩
      intro k hk hjk hks
      omega
  | succ F ih =>
      intro j hF hj0 hj2 L hLc hLo
      by_cases hjs : j < opSize
      · rw [popInner, dif_pos hjs]
        have hjej : 2 * (j / 2) = j := by omega
        have hjh0 : 0 ≤ j / 2 := by omega
        have harg : opOff + j = opOff + 2 * (j / 2) := by omega
        have hPb : 0 ≤ bget buf (opOff + j) ∧ bget buf (opOff + j) ≤ 1 := by
          rw [harg]; exact hob (j / 2) hjh0 (by omega)
        by_cases hlt : bget buf (opOff + j) < c
        · rw [if_pos hlt]
          have hLP : L ≤ bget buf (opOff + j) := by
            rw [harg]; exact hLo (j / 2) hjh0 (by omega) (by omega)
          have hfut : ∀ k : ℤ, 0 ≤ k → j + 2 ≤ 2 * k → 2 * k < opSize →
              bget buf (opOff + j) ≤ bget buf (opOff + 2 * k) := by
            intro k hk hjk hks
            rw [harg]
            exact hos (j / 2) k hjh0 (by omega) hks
          obtain ⟨ch, bd, hj12, hj20, hj2e, hfu⟩ :=
            ih (j + 2) (by omega) (by omega) (by omega)
              (bget buf (opOff + j)) (le_of_lt hlt) hfut
          refine ⟨?_, ?_, by omega, hj20, hj2e, hfu⟩
          · simpa [List.chain'_cons] using And.intro hLP ch
          · intro s hs
            rcases List.mem_cons.mp hs with hs | hs
            · rw [hs]
              exact ⟨hPb.1, hPb.2, le_of_lt hlt⟩
            · exact bd s hs
        · rw [if_neg hlt]
          have hcP : c ≤ bget buf (opOff + j) := le_of_not_lt hlt
          have hspos :
              (if j = 0 then (⟨c, bget buf (opOff + j + 1), cr, cg, cb⟩ : GStop)
               else
                ⟨c, bget buf (opOff + j - 1)
                     + (c - bget buf (opOff + j - 2))
                       / (bget buf (opOff + j) - bget buf (opOff + j - 2))
                       * (bget buf (opOff + j + 1) - bget buf (opOff + j - 1)),
                 cr, cg, cb⟩).pos = c := by
            by_cases h0 : j = 0 <;> simp [h0]
          refine ⟨?_, ?_, by omega, by omega, by omega, ?_⟩
          · simp only [List.map_cons, List.map_nil, hspos]
            exact List.chain'_pair.mpr hLc
          · intro s hs
            rw [List.mem_singleton.mp hs, hspos]
            exact ⟨hc0, hc1, le_rfl⟩
          · intro k hk hjk hks
            calc c ≤ bget buf (opOff + j) := hcP
              _ ≤ bget buf (opOff + 2 * k) := by
                  rw [harg]
                  exact hos (j / 2) k hjh0 (by omega) hks
      · rw [popInner, dif_neg hjs]
        refine ⟨by simp, by simp, le_refl j, hj0, hj2, ?_⟩
        intro k hk hjk hks
        omega

/-- Invariant of the outer color-stop loop: with ascending, `[0,1]`-bounded
color positions from `base` and opacity positions from `opOff`, and a
lower bound `L` below the first color stop and all unconsumed opacity
stops, the emitted positions chain upward from `L` and stay in `[0,1]`. -/
theorem popGo_spec (buf : List ℚ) (opOff opSize : ℤ)
    (hos : ∀ k1 k2 : ℤ, 0 ≤ k1 → k1 ≤ k2 → 2 * k2 < opSize →
      bget buf (opOff + 2 * k1) ≤ bget buf (opOff + 2 * k2))
    (hob : ∀ k : ℤ, 0 ≤ k → 2 * k < opSize →
      0 ≤ bget buf (opOff + 2 * k) ∧ bget buf (opOff + 2 * k) ≤ 1) :
    ∀ n : ℕ, ∀ base j : ℤ, ∀ L : ℚ,
    0 ≤ j → j % 2 = 0 →
    (∀ i1 i2 : ℕ, i1 ≤ i2 → i2 < n →
      bget buf (base + 4 * i1) ≤ bget buf (base + 4 * i2)) →
    (∀ i : ℕ, i < n → 0 ≤ bget buf (base + 4 * i) ∧ bget buf (base + 4 * i) ≤ 1) →
    (0 < n → L ≤ bget buf base) →
    (∀ k : ℤ, 0 ≤ k → j ≤ 2 * k → 2 * k < opSize → L ≤ bget buf (opOff + 2 * k)) →
    List.Chain' (· ≤ ·) (L :: ((popGo buf opOff opSize base j n).map GStop.pos))
    ∧ ∀ s ∈ popGo buf opOff opSize base j n, 0 ≤ s.pos ∧ s.pos ≤ 1 := by
  intro n
  induction n with
  | zero =>
      intro base j L hj0 hj2 hcs hcb hLc hLo
      simp [popGo]
  | succ n ih =>
      intro base j L hj0 hj2 hcs hcb hLc hLo
      have hc : 0 ≤ bget buf base ∧ bget buf base ≤ 1 := by
        have := hcb 0 (by omega)
        norm_num at this
        exact this
      have hLc' : L ≤ bget buf base := hLc (by omega)
      have hcs' : ∀ i1 i2 : ℕ, i1 ≤ i2 → i2 < n →
          bget buf (base + 4 + 4 * i1) ≤ bget buf (base + 4 + 4 * i2) := by
        intro i1 i2 h12 h2
        have h := hcs (i1 + 1) (i2 + 1) (by omega) (by omega)
        have e1 : base + 4 * ((i1 + 1 : ℕ) : ℤ) = base + 4 + 4 * (i1 : ℤ) := by
          push_cast; ring
        have e2 : base + 4 * ((i2 + 1 : ℕ) : ℤ) = base + 4 + 4 * (i2 : ℤ) := by
          push_cast; ring
        rw [e1, e2] at h
        exact h
      have hcb' : ∀ i : ℕ, i < n →
          0 ≤ bget buf (base + 4 + 4 * i) ∧ bget buf (base + 4 + 4 * i) ≤ 1 := by
        intro i hi
        have h := hcb (i + 1) (by omega)
        have e1 : base + 4 * ((i + 1 : ℕ) : ℤ) = base + 4 + 4 * (i : ℤ) := by
          push_cast; ring
        rw [e1] at h
        exact h
      have hstep : 0 < n → bget buf base ≤ bget buf (base + 4) := by
        intro hn
        have h := hcs 0 1 (by omega) (by omega)
        norm_num at h
        exact h
      by_cases hop : opSize = 0
      · subst hop
        simp only [popGo, if_true]
        obtain ⟨chB, bdB⟩ := ih (base + 4) j (bget buf base) hj0 hj2 hcs' hcb' hstep
          (fun k hk hjk hks => absurd hks (by omega))
        refine ⟨List.chain'_cons.mpr ⟨hLc', chB⟩, ?_⟩
        intro s hs
        rcases List.mem_cons.mp hs with hs | hs
        · rw [hs]
          exact hc
        · exact bdB s hs
      · by_cases hjop : j = opSize
        · simp only [popGo, if_neg hop, if_pos hjop]
          obtain ⟨chB, bdB⟩ := ih base j (bget buf base) hj0 hj2
            (fun i1 i2 h12 h2 => hcs i1 i2 h12 (by omega))
            (fun i hi => hcb i (by omega))
            (fun _ => le_refl _)
            (fun k hk hjk hks => absurd hks (by omega))
          have hpos : (if bget buf (opOff + j - 2) < bget buf base then
              (⟨bget buf base, bget buf (opOff + j - 1),
                bget buf (base + 1), bget buf (base + 2), bget buf (base + 3)⟩ : GStop)
             else
              ⟨bget buf base,
               bget buf (opOff + j - 3)
                 + (bget buf base - bget buf (opOff + j - 4))
                   / (bget buf (opOff + j - 2) - bget buf (opOff + j - 4))
                   * (bget buf (opOff + j - 1) - bget buf (opOff + j - 3)),
               bget buf (base + 1), bget buf (base + 2), bget buf (base + 3)⟩).pos
              = bget buf base := by
            split <;> rfl
          refine ⟨?_, ?_⟩
          · simp only [List.map_cons, hpos]
            exact List.chain'_cons.mpr ⟨hLc', chB⟩
          · intro s hs
            rcases List.mem_cons.mp hs with hs | hs
            · rw [hs, hpos]
              exact hc
            · exact bdB s hs
        · simp only [popGo, if_neg hop, if_neg hjop]
          obtain ⟨chA, bdA, hjle, hj20, hj2e, hfut⟩ :=
            popInner_spec buf opOff opSize hos hob (bget buf base)
              (bget buf (base + 1)) (bget buf (base + 2)) (bget buf (base + 3))
              hc.1 hc.2 ((opSize - j).toNat) j (le_refl _) hj0 hj2 L hLc' hLo
          obtain ⟨chB, bdB⟩ := ih (base + 4)
            (popInner buf opOff opSize (bget buf base) (bget buf (base + 1))
              (bget buf (base + 2)) (bget buf (base + 3)) j).2
            (bget buf base) hj20 hj2e hcs' hcb' hstep hfut
          constructor
          · rw [List.map_append, show (L :: (List.map GStop.pos
                (popInner buf opOff opSize (bget buf base) (bget buf (base + 1))
                  (bget buf (base + 2)) (bget buf (base + 3)) j).1
                ++ List.map GStop.pos (popGo buf opOff opSize (base + 4)
                  (popInner buf opOff opSize (bget buf base) (bget buf (base + 1))
                    (bget buf (base + 2)) (bget buf (base + 3)) j).2 n)))
              = ((L :: List.map GStop.pos
                  (popInner buf opOff opSize (bget buf base) (bget buf (base + 1))
                    (bget buf (base + 2)) (bget buf (base + 3)) j).1)
                ++ List.map GStop.pos (popGo buf opOff opSize (base + 4)
                  (popInner buf opOff opSize (bget buf base) (bget buf (base + 1))
                    (bget buf (base + 2)) (bget buf (base + 3)) j).2 n))
              from rfl]
            refine List.chain'_append.mpr ⟨chA, ?_, ?_⟩
            · have := chB.tail
              simpa using this
            · intro x hx y hy
              have hxmem : x ∈ L :: List.map GStop.pos
                  (popInner buf opOff opSize (bget buf base) (bget buf (base + 1))
                    (bget buf (base + 2)) (bget buf (base + 3)) j).1 := by
                obtain ⟨hne, hxl⟩ := List.mem_getLast?_eq_getLast hx
                rw [hxl]
                exact List.getLast_mem hne
              have hxc : x ≤ bget buf base := by
                rcases List.mem_cons.mp hxmem with h | h
                · rw [h]; exact hLc'
                · obtain ⟨s, hs, hsx⟩ := List.mem_map.mp h
                  rw [← hsx]
                  exact (bdA s hs).2.2
              have hcy : bget buf base ≤ y := (List.chain'_cons'.mp chB).1 y hy
              exact le_trans hxc hcy
          · intro s hs
            rcases List.mem_append.mp hs with hs | hs
            · exact ⟨(bdA s hs).1, (bdA s hs).2.1⟩
            · exact bdB s hs

/-- Byte offset of the opacity pairs in the flat gradient buffer. -/
def opacityOffset (g : LOTGradient) (f : ℤ) : ℤ := resolvedColorPoints g f * 4

/-- Number of buffer entries holding opacity pairs (the code's
`opacityArraySize`). -/
def opacitySize (g : LOTGradient) (f : ℤ) : ℤ :=
  ((g.mGradient f).length : ℤ) - resolvedColorPoints g f * 4

/-- C5: when the color-stop positions are ascending and lie in `[0,1]` and
the opacity-stop positions are ascending and lie in `[0,1]` (the format's
convention for well-formed input), the stop sequence produced by
`populate` has monotonically non-decreasing positions, each in `[0,1]`. -/
theorem populate_stops_monotone_in_unit (g : LOTGradient) (f : ℤ)
    (hcs : ∀ i1 i2 : ℕ, i1 ≤ i2 → (i2 : ℤ) < resolvedColorPoints g f →
      bget (g.mGradient f) (4 * i1) ≤ bget (g.mGradient f) (4 * i2))
    (hcb : ∀ i : ℕ, (i : ℤ) < resolvedColorPoints g f →
      0 ≤ bget (g.mGradient f) (4 * i) ∧ bget (g.mGradient f) (4 * i) ≤ 1)
    (hos : ∀ k1 k2 : ℤ, 0 ≤ k1 → k1 ≤ k2 → 2 * k2 < opacitySize g f →
      bget (g.mGradient f) (opacityOffset g f + 2 * k1)
        ≤ bget (g.mGradient f) (opacityOffset g f + 2 * k2))
    (hob : ∀ k : ℤ, 0 ≤ k → 2 * k < opacitySize g f →
      0 ≤ bget (g.mGradient f) (opacityOffset g f + 2 * k)
        ∧ bget (g.mGradient f) (opacityOffset g f + 2 * k) ≤ 1) :
    List.Chain' (· ≤ ·) ((populate g f).map GStop.pos)
    ∧ ∀ s ∈ populate g f, 0 ≤ s.pos ∧ s.pos ≤ 1 := by
  have hpop : populate g f
      = popGo (g.mGradient f) (opacityOffset g f) (opacitySize g f) 0 0
          (resolvedColorPoints g f).toNat := rfl
  have h := popGo_spec (g.mGradient f) (opacityOffset g f) (opacitySize g f) hos hob
    (resolvedColorPoints g f).toNat 0 0 0 (le_refl 0) rfl
    (fun i1 i2 h12 h2 => by
      have := hcs i1 i2 h12 (by omega)
      simpa using this)
    (fun i hi => by
      have := hcb i (by omega)
      simpa using this)
    (fun hn => by
      have := hcb 0 (by omega)
      simpa using this.1)
    (fun k hk hjk hks => (hob k hk hks).1)
  rw [hpop]
  exact ⟨h.1.tail, h.2⟩

/-- Witness for C5: the gradient with one color stop at 0.5 and opacity
stops at 0.0 and 1.0 satisfies the sortedness hypotheses, so its merged
stops (positions 0.0 then 0.5) are non-decreasing and within `[0,1]`. -/
theorem populate_stops_monotone_in_unit_witness :
    List.Chain' (· ≤ ·) ((populate c4Ex 0).map GStop.pos)
    ∧ ∀ s ∈ populate c4Ex 0, 0 ≤ s.pos ∧ s.pos ≤ 1 := by
  refine populate_stops_monotone_in_unit c4Ex 0 ?_ ?_ ?_ ?_
  · intro i1 i2 h12 h2
    simp [resolvedColorPoints, c4Ex] at h2
    have e1 : i1 = 0 := by omega
    have e2 : i2 = 0 := by omega
    subst e1
    subst e2
    exact le_refl _
  · intro i hi
    simp [resolvedColorPoints, c4Ex] at hi
    have e : i = 0 := by omega
    subst e
    norm_num [bget, c4Ex]
  · intro k1 k2 h0 h12 hlt
    simp [opacitySize, resolvedColorPoints, c4Ex] at hlt
    have hk2 : k2 = 0 ∨ k2 = 1 := by omega
    have hk1 : k1 = 0 ∨ k1 = 1 := by omega
    rcases hk1 with h | h <;> rcases hk2 with h2 | h2 <;> subst h <;> subst h2 <;>
      first
        | omega
        | norm_num [bget, c4Ex, opacityOffset, resolvedColorPoints,
            show Int.toNat 4 = 4 from rfl, show Int.toNat 6 = 6 from rfl]
  · intro k hk hlt
    simp [opacitySize, resolvedColorPoints, c4Ex] at hlt
    have hk2 : k = 0 ∨ k = 1 := by omega
    rcases hk2 with h | h <;> subst h <;>
      norm_num [bget, c4Ex, opacityOffset, resolvedColorPoints,
        show Int.toNat 4 = 4 from rfl, show Int.toNat 6 = 6 from rfl]

/-- Once the opacity array is exhausted (`j = opacityArraySize`), the
stalled color pointer makes every remaining iteration emit a stop at the
SAME color-stop position (the `continue` skips `ptr += 4`). -/
theorem popGo_exhausted_stalls (buf : List ℚ) (opOff opSize base j : ℤ)
    (hop : opSize ≠ 0) (hj : j = opSize) :
    ∀ n : ℕ, (popGo buf opOff opSize base j n).map GStop.pos
      = List.replicate n (bget buf base) := by
  intro n
  induction n with
  | zero => simp [popGo]
  | succ n ih =>
      simp only [popGo, if_neg hop, if_pos hj, List.map_cons, ih, List.replicate_succ]
      congr 1
      split <;> rfl
